import Mathlib

/-!
Shallow embedding of the frame-extractor script (`main.py`) and proofs about
its externally observable behaviour.

Modelling conventions:
* Strings (paths, file names) are `List Char`, written via `String.toList`;
  the helper operations mirror `os.path.basename`, `os.path.splitext`,
  `str.lower`, `str.endswith` on such lists.
* The floating-point frame rate reported by the decoder is modelled as an
  exact rational `ℚ`; Python `int(x)` truncation toward zero is `pyInt`,
  Python `//` floor division is `Int.fdiv`.
* `cv2.VideoCapture` is modelled by a `Video` record: whether it opened, the
  reported fps and frame-count properties, and the frame returned by a
  seek-then-read at a given index (`none` models a failed read).
* A Python exception escaping `process_video` is modelled by
  `Except.error`; a normal return of the saved-frame count by `Except.ok`.
* `cv2.resize` is modelled by its effect on the stored dimensions only.
-/

/-- The two exception kinds the script can raise. -/
inductive PyError where
  | zeroDivisionError
  | valueError
deriving DecidableEq

instance : DecidableEq (Except PyError ℕ) := fun a b =>
  match a, b with
  | .ok n, .ok m =>
    if h : n = m then isTrue (by rw [h]) else isFalse (fun hh => by cases hh; exact h rfl)
  | .ok _, .error _ => isFalse (fun hh => by cases hh)
  | .error _, .ok _ => isFalse (fun hh => by cases hh)
  | .error e, .error f =>
    if h : e = f then isTrue (by rw [h]) else isFalse (fun hh => by cases hh; exact h rfl)

/-- A decoded raster frame; only the dimensions matter to the script. -/
structure Frame where
  height : ℤ
  width : ℤ
deriving DecidableEq

/-- Model of an opened `cv2.VideoCapture`: `read i` is the result of seeking
to frame index `i` (`CAP_PROP_POS_FRAMES`) and calling `read()`. -/
structure Video where
  isOpened : Bool
  fps : ℚ
  frameCountProp : ℚ
  read : ℤ → Option Frame

/-- Python `int(q)` on a rational: truncation toward zero. -/
def pyInt (q : ℚ) : ℤ := if 0 ≤ q then ⌊q⌋ else ⌈q⌉

/-- Number of elements of Python `range(start, stop, step)` for `step ≠ 0`. -/
def pyRangeLen (start stop step : ℤ) : ℕ :=
  if 0 < step then ((stop - start + step - 1).fdiv step).toNat
  else ((start - stop - step - 1).fdiv (-step)).toNat

/-- Python `range(start, stop, step)`: raises `ValueError` when `step = 0`,
otherwise yields `start, start+step, ...`. -/
def pyRange (start stop step : ℤ) : Except PyError (List ℤ) :=
  if step = 0 then .error .valueError
  else .ok ((List.range (pyRangeLen start stop step)).map (fun (i : ℕ) => start + (i : ℤ) * step))

/-- `os.path.basename`: the part of the path after the last `'/'`. -/
def basename (p : List Char) : List Char :=
  p.foldl (fun acc c => if c = '/' then [] else acc ++ [c]) []

/-- The root part of `os.path.splitext name` for a slash-free `name`: cut at
the last `'.'` that has some non-dot character before it (so that names
consisting of leading dots only, like `".bashrc"`, are kept whole). -/
def splitextStem (name : List Char) : List Char :=
  match ((List.range name.length).filter (fun i =>
      name.getD i ' ' == '.' && (List.range i).any (fun j => name.getD j ' ' != '.'))).getLast? with
  | some i => name.take i
  | none => name

/-- Python `f"{n:04d}"` for a natural number: decimal digits left-padded with
zeros to width 4. -/
def pad4 (n : ℕ) : List Char :=
  let s := (toString n).toList
  List.replicate (4 - s.length) '0' ++ s

/-- Python `s.endswith(suf)`. -/
def endsWithCh (suf s : List Char) : Bool :=
  decide (suf.length ≤ s.length) && s.drop (s.length - suf.length) == suf

/-- Python `s.lower()` (ASCII). -/
def lowerStr (s : List Char) : List Char := s.map Char.toLower

/-- The components of a saved-frame file name
`os.path.join(output_dir, f"{stem}_frame_{idx:04d}.png")`. -/
structure SavedFile where
  dir : List Char
  stem : List Char
  idx : ℕ
deriving DecidableEq

/-- The rendered file-name string passed to `cv2.imwrite`. -/
def SavedFile.render (f : SavedFile) : List Char :=
  f.dir ++ '/' :: (f.stem ++ "_frame_".toList ++ pad4 f.idx ++ ".png".toList)

/-- One `cv2.imwrite` call: the frame index the loop seeked to, the file it
wrote, and the (resized) frame written. -/
structure WriteEvent where
  srcIdx : ℤ
  file : SavedFile
  frame : Frame
deriving DecidableEq

/-- Observable outcome of one `process_video` call. -/
structure ProcOut where
  result : Except PyError ℕ
  released : Bool
  errorPrinted : Bool
  writes : List WriteEvent

/-- `frame_interval = int(video_fps * frame_interval_seconds)` (line 25). -/
def frame_interval (fps : ℚ) (frame_interval_seconds : ℤ) : ℤ :=
  pyInt (fps * (frame_interval_seconds : ℚ))

/-- The body of the `for frame_count in range(...)` loop of `process_video`
(lines 35–53): seek to index `i`, read; break on a failed read; otherwise
compute `height // divisor`, `width // divisor` (raising `ZeroDivisionError`
when `divisor = 0`), resize, write the PNG, increment the saved count. -/
def readLoop (v : Video) (divisor : ℤ) (output_dir stem : List Char) :
    List ℤ → ℕ → Except PyError ℕ × List WriteEvent
  | [], count => (.ok count, [])
  | i :: rest, count =>
    match v.read i with
    | none => (.ok count, [])
    | some fr =>
      if divisor = 0 then (.error .zeroDivisionError, [])
      else
        let fr2 : Frame := ⟨fr.height.fdiv divisor, fr.width.fdiv divisor⟩
        let ev : WriteEvent := ⟨i, ⟨output_dir, stem, count⟩, fr2⟩
        let (res, evs) := readLoop v divisor output_dir stem rest (count + 1)
        (res, ev :: evs)

/-- Package the loop outcome (lines 55–57): a normal loop exit reaches
`video.release()` and `return saved_frame_count`; an exception propagates
before the `release()` line is reached. -/
def finishRun : Except PyError ℕ × List WriteEvent → ProcOut
  | (.ok n, evs) => ⟨.ok n, true, false, evs⟩
  | (.error e, evs) => ⟨.error e, false, false, evs⟩

/-- `process_video(video_path, output_dir, frame_interval_seconds, divisor)`
(lines 9–57): early `return 0` with an error print when the video did not
open or reports fps 0; otherwise iterate `range(0, total_frames,
frame_interval)` and release the handle after the loop. -/
def process_video (v : Video) (video_path output_dir : List Char)
    (frame_interval_seconds divisor : ℤ) : ProcOut :=
  if ¬ v.isOpened then ⟨.ok 0, false, true, []⟩
  else
    let filename := basename video_path
    if v.fps = 0 then ⟨.ok 0, false, true, []⟩
    else
      let fi := frame_interval v.fps frame_interval_seconds
      let total_frames := pyInt v.frameCountProp
      match pyRange 0 total_frames fi with
      | .error e => ⟨.error e, false, false, []⟩
      | .ok idxs => finishRun (readLoop v divisor output_dir (splitextStem filename) idxs 0)

/-- `filename.lower().endswith((".mp4", ".ts"))` (line 82). -/
def isVideoFile (name : List Char) : Bool :=
  endsWithCh ".mp4".toList (lowerStr name) || endsWithCh ".ts".toList (lowerStr name)

/-- The nested collection loop of `extract_frames` (lines 79–83): for each
directory, append `os.path.join(dir, f)` for every listed entry `f` whose
lowercased name ends in `.mp4` or `.ts`. -/
def collect_video_paths (listing : List Char → List (List Char))
    (video_dir_paths : List (List Char)) : List (List Char) :=
  video_dir_paths.foldl
    (fun acc d => acc ++ ((listing d).filter isVideoFile).map (fun f => d ++ '/' :: f)) []

/-- The worker results of `extract_frames` (lines 92–96): `pool.map` applies
`process_video` to every collected path, in order; `env` maps a path to the
`cv2.VideoCapture` obtained for it. -/
def extract_frames_results (env : List Char → Video)
    (listing : List Char → List (List Char)) (video_dir_paths : List (List Char))
    (output_dir : List Char) (frame_interval_seconds divisor : ℤ) : List ProcOut :=
  (collect_video_paths listing video_dir_paths).map
    (fun p => process_video (env p) p output_dir frame_interval_seconds divisor)

/-- The size-summation loop of `extract_frames` (lines 101–105): total byte
size of the entries of the output-directory listing whose names end in
`".png"`; a listing entry is a (name, byte size) pair. -/
def totalPngBytes (dirListing : List (List Char × ℕ)) : ℕ :=
  (dirListing.foldl (fun acc f => if endsWithCh ".png".toList f.1 then acc + f.2 else acc) 0)

/-- The unit-scaling `while` loop of `extract_frames` (lines 108–114); it
runs at most 3 iterations because the index is capped below 3, so fuel 3 is
exact. -/
def scaleLoop : ℕ → ℚ → ℕ → ℚ × ℕ
  | 0, v, idx => (v, idx)
  | fuel + 1, v, idx =>
    if 1024 ≤ v ∧ idx < 3 then scaleLoop fuel (v / 1024) (idx + 1) else (v, idx)

/-- The displayed size: scaled value and the index into `["B","KB","MB","GB"]`. -/
def formatSize (total : ℕ) : ℚ × ℕ := scaleLoop 3 (total : ℚ) 0

/-- Rounding to the nearest integer (ties upward), from the spec's words
"round(fps × seconds), the nearest integer". -/
def specRound (q : ℚ) : ℤ := ⌊q + 1 / 2⌋

/-- Spec-side list of target frame indices: the multiples of `N` below `T`,
in increasing order; there are `⌈T / N⌉` of them when `N ≥ 1`. -/
def specTargets (N T : ℤ) : List ℤ :=
  (List.range (⌈(T : ℚ) / (N : ℚ)⌉.toNat)).map (fun (k : ℕ) => (k : ℤ) * N)

/-- Concrete videos used to instantiate the theorems below. -/
def videoAllReads : Video := ⟨true, 1, 3, fun _ => some ⟨4, 6⟩⟩

/-- An opened video whose reported frame rate is zero. -/
def videoZeroFps : Video := ⟨true, 0, 10, fun _ => some ⟨2, 2⟩⟩

/-- A video whose file could not be opened. -/
def videoUnopened : Video := ⟨false, 25, 100, fun _ => none⟩

/-- An opened 30 fps video. -/
def videoFps30 : Video := ⟨true, 30, 10, fun _ => some ⟨2, 2⟩⟩

/-! ### Arithmetic bridges between the embedded integer operations and
their mathematical descriptions -/

theorem fdiv_eq_rat_floor (a : ℤ) {b : ℤ} (hb : 0 < b) :
    a.fdiv b = ⌊(a : ℚ) / (b : ℚ)⌋ := by
  rw [Int.fdiv_eq_ediv _ hb.le]
  have h2 := Rat.floor_intCast_div_natCast a b.toNat
  have h1 : ((b.toNat : ℕ) : ℚ) = (b : ℚ) := by
    rw [← Int.toNat_of_nonneg hb.le]
    push_cast
    rfl
  rw [h1] at h2
  rw [h2, Int.toNat_of_nonneg hb.le]

theorem ceil_div_eq (T : ℤ) {N : ℤ} (hN : 0 < N) :
    (T + N - 1).fdiv N = ⌈(T : ℚ) / (N : ℚ)⌉ := by
  have hQ : (0 : ℚ) < (N : ℚ) := by exact_mod_cast hN
  rw [Int.fdiv_eq_ediv _ hN.le]
  have hid := Int.ediv_add_emod (T + N - 1) N
  have hr0 := Int.emod_nonneg (T + N - 1) (ne_of_gt hN)
  have hrlt := Int.emod_lt_of_pos (T + N - 1) hN
  set n := (T + N - 1) / N with hn
  symm
  rw [Int.ceil_eq_iff]
  constructor
  · have hlt : (n - 1) * N < T := by nlinarith
    have : (((n - 1 : ℤ)) : ℚ) < (T : ℚ) / (N : ℚ) := by
      rw [lt_div_iff₀ hQ]
      exact_mod_cast hlt
    calc ((n : ℤ) : ℚ) - 1 = (((n - 1 : ℤ)) : ℚ) := by push_cast; ring
    _ < (T : ℚ) / (N : ℚ) := this
  · have hle : T ≤ n * N := by nlinarith
    rw [div_le_iff₀ hQ]
    exact_mod_cast hle

theorem pyRange_pos (T : ℤ) {N : ℤ} (hN : 0 < N) :
    pyRange 0 T N = .ok (specTargets N T) := by
  unfold pyRange pyRangeLen specTargets
  rw [if_neg (ne_of_gt hN), if_pos hN]
  have h1 : T - 0 + N - 1 = T + N - 1 := by ring
  rw [h1, ceil_div_eq T hN]
  congr 1
  apply List.map_congr_left
  intro i _
  ring

theorem mem_specTargets {N T i : ℤ} (hN : 0 < N) :
    i ∈ specTargets N T ↔ 0 ≤ i ∧ i < T ∧ N ∣ i := by
  have hQ : (0 : ℚ) < (N : ℚ) := by exact_mod_cast hN
  unfold specTargets
  rw [List.mem_map]
  constructor
  · rintro ⟨k, hk, rfl⟩
    rw [List.mem_range] at hk
    have hk1 : ((k : ℕ) : ℤ) < ⌈(T : ℚ) / (N : ℚ)⌉ := Int.lt_toNat.1 hk
    have hk2 : (((k : ℕ) : ℤ) : ℚ) < (T : ℚ) / (N : ℚ) := Int.lt_ceil.1 hk1
    have hk3 : ((k : ℤ) : ℚ) * (N : ℚ) < (T : ℚ) := (lt_div_iff₀ hQ).1 hk2
    exact ⟨by positivity, by exact_mod_cast hk3, ⟨(k : ℤ), by ring⟩⟩
  · rintro ⟨h0, hT, k, rfl⟩
    have hk0 : 0 ≤ k := by
      by_contra hneg
      push_neg at hneg
      have : N * k < 0 := mul_neg_of_pos_of_neg hN hneg
      omega
    refine ⟨k.toNat, ?_, ?_⟩
    · rw [List.mem_range, Int.lt_toNat, Int.toNat_of_nonneg hk0, Int.lt_ceil,
        lt_div_iff₀ hQ]
      rw [mul_comm]
      exact_mod_cast hT
    · rw [Int.toNat_of_nonneg hk0]
      ring

theorem specTargets_sorted {N : ℤ} (T : ℤ) (hN : 0 < N) :
    List.Pairwise (· < ·) (specTargets N T) := by
  unfold specTargets
  refine List.Pairwise.map _ ?_ (List.pairwise_lt_range _)
  intro a b hab
  have hab' : ((a : ℕ) : ℤ) < ((b : ℕ) : ℤ) := by exact_mod_cast hab
  exact mul_lt_mul_of_pos_right hab' hN

theorem specTargets_length {N : ℤ} (T : ℤ) :
    (specTargets N T).length = ⌈(T : ℚ) / (N : ℚ)⌉.toNat := by
  unfold specTargets
  rw [List.length_map, List.length_range]

theorem readLoop_spec (v : Video) {D : ℤ} (o st : List Char) (hD : D ≠ 0) :
    ∀ (idxs : List ℤ) (c : ℕ),
      (readLoop v D o st idxs c).1 =
        .ok (c + (idxs.takeWhile (fun i => (v.read i).isSome)).length) ∧
      (readLoop v D o st idxs c).2.map WriteEvent.srcIdx =
        idxs.takeWhile (fun i => (v.read i).isSome) ∧
      (readLoop v D o st idxs c).2.map WriteEvent.file =
        (List.range (idxs.takeWhile (fun i => (v.read i).isSome)).length).map
          (fun k => ⟨o, st, c + k⟩) ∧
      ∀ e ∈ (readLoop v D o st idxs c).2, ∃ fr, v.read e.srcIdx = some fr ∧
        e.frame = ⟨fr.height.fdiv D, fr.width.fdiv D⟩ := by
  intro idxs
  induction idxs with
  | nil => intro c; simp [readLoop]
  | cons i rest ih =>
    intro c
    cases hv : v.read i with
    | none =>
      simp [readLoop, hv, List.takeWhile_cons, Option.isSome]
    | some fr =>
      have ihc := ih (c + 1)
      rcases hrec : readLoop v D o st rest (c + 1) with ⟨res, evs⟩
      rw [hrec] at ihc
      obtain ⟨ih1, ih2, ih3, ih4⟩ := ihc
      have htw : (i :: rest).takeWhile (fun j => (v.read j).isSome) =
          i :: rest.takeWhile (fun j => (v.read j).isSome) := by
        rw [List.takeWhile_cons_of_pos]
        simp [hv]
      rw [htw]
      simp only [readLoop, hv, hD, if_false, hrec]
      refine ⟨?_, ?_, ?_, ?_⟩
      · simpa [Nat.add_comm, Nat.add_assoc, Nat.add_left_comm] using ih1
      · simpa using ih2
      · simp only [List.length_cons, List.range_succ_eq_map, List.map_cons, List.map_map]
        rw [ih3]
        congr 1
        apply List.map_congr_left
        intro a _
        simp only [Function.comp_apply, SavedFile.mk.injEq, true_and]
        omega
      · intro e he
        rcases List.mem_cons.1 he with rfl | hmem
        · exact ⟨fr, hv, rfl⟩
        · exact ih4 e hmem

theorem process_video_not_opened (v : Video) (p o : List Char) (s D : ℤ)
    (h : v.isOpened = false) :
    process_video v p o s D = ⟨.ok 0, false, true, []⟩ := by
  simp [process_video, h]

theorem process_video_zero_fps (v : Video) (p o : List Char) (s D : ℤ)
    (h : v.isOpened = true) (hf : v.fps = 0) :
    process_video v p o s D = ⟨.ok 0, false, true, []⟩ := by
  simp [process_video, h, hf]

theorem process_video_zero_interval (v : Video) (p o : List Char) (s D : ℤ)
    (h : v.isOpened = true) (hf : v.fps ≠ 0)
    (hN : frame_interval v.fps s = 0) :
    process_video v p o s D = ⟨.error .valueError, false, false, []⟩ := by
  simp [process_video, h, hf, hN, pyRange]

theorem process_video_run (v : Video) (p o : List Char) (s D : ℤ)
    (h : v.isOpened = true) (hf : v.fps ≠ 0)
    (hN : 0 < frame_interval v.fps s) :
    process_video v p o s D =
      finishRun (readLoop v D o (splitextStem (basename p))
        (specTargets (frame_interval v.fps s) (pyInt v.frameCountProp)) 0) := by
  simp only [process_video, h, hf]
  rw [pyRange_pos _ hN]
  simp

/-- C1: for a video that opens with positive fps, frame interval `N ≥ 1` and
(truncated) total frame count `T`, `process_video` saves exactly the frames
whose 0-based index is a multiple of `N` and less than `T`, in increasing
order, stopping at the first failed read; when every read succeeds the
returned count is `⌈T / N⌉`. -/
theorem c1_saves_every_Nth_frame (v : Video) (p o : List Char) (s D : ℤ)
    (hopen : v.isOpened = true) (hfps : 0 < v.fps)
    (hN : 1 ≤ frame_interval v.fps s) (hD : D ≠ 0) :
    (∀ i, i ∈ specTargets (frame_interval v.fps s) (pyInt v.frameCountProp) ↔
        0 ≤ i ∧ i < pyInt v.frameCountProp ∧ frame_interval v.fps s ∣ i) ∧
    (process_video v p o s D).writes.map WriteEvent.srcIdx =
      (specTargets (frame_interval v.fps s) (pyInt v.frameCountProp)).takeWhile
        (fun i => (v.read i).isSome) ∧
    List.Pairwise (· < ·) ((process_video v p o s D).writes.map WriteEvent.srcIdx) ∧
    (process_video v p o s D).result = .ok (process_video v p o s D).writes.length ∧
    ((∀ i ∈ specTargets (frame_interval v.fps s) (pyInt v.frameCountProp),
        (v.read i).isSome = true) →
      (process_video v p o s D).writes.map WriteEvent.srcIdx =
        specTargets (frame_interval v.fps s) (pyInt v.frameCountProp) ∧
      (process_video v p o s D).result =
        .ok (⌈(pyInt v.frameCountProp : ℚ) / (frame_interval v.fps s : ℚ)⌉.toNat)) := by
  have hNpos : 0 < frame_interval v.fps s := by omega
  have hrw := process_video_run v p o s D hopen hfps.ne' hNpos
  set N := frame_interval v.fps s with hNdef
  set T := pyInt v.frameCountProp with hTdef
  have hspec := readLoop_spec v o (splitextStem (basename p)) hD (specTargets N T) 0
  rcases hrec : readLoop v D o (splitextStem (basename p)) (specTargets N T) 0 with ⟨res, evs⟩
  rw [hrec] at hspec
  obtain ⟨h1, h2, h3, h4⟩ := hspec
  simp only at h1 h2 h3
  have hout : process_video v p o s D =
      ⟨.ok (0 + ((specTargets N T).takeWhile (fun i => (v.read i).isSome)).length),
        true, false, evs⟩ := by
    rw [hrw, hrec, h1]
    rfl
  rw [hout]
  simp only [zero_add]
  refine ⟨fun i => mem_specTargets hNpos, h2, ?_, ?_, ?_⟩
  · rw [h2]
    exact List.Pairwise.sublist (List.takeWhile_sublist _) (specTargets_sorted T hNpos)
  · have := congrArg List.length h2
    rw [List.length_map] at this
    rw [this]
  · intro hsucc
    have htw : (specTargets N T).takeWhile (fun i => (v.read i).isSome) = specTargets N T :=
      List.takeWhile_eq_self_iff.2 (fun x hx => hsucc x hx)
    rw [htw] at h2 ⊢
    exact ⟨h2, by rw [specTargets_length]⟩

theorem pyRange_ne_zero (a b : ℤ) {step : ℤ} (h : step ≠ 0) :
    pyRange a b step =
      .ok ((List.range (pyRangeLen a b step)).map (fun (i : ℕ) => a + (i : ℤ) * step)) := by
  rw [pyRange, if_neg h]

theorem process_video_run_any (v : Video) (p o : List Char) (s D : ℤ)
    (h : v.isOpened = true) (hf : v.fps ≠ 0)
    (hN : frame_interval v.fps s ≠ 0) :
    process_video v p o s D =
      finishRun (readLoop v D o (splitextStem (basename p))
        ((List.range (pyRangeLen 0 (pyInt v.frameCountProp) (frame_interval v.fps s))).map
          (fun (i : ℕ) => 0 + (i : ℤ) * frame_interval v.fps s)) 0) := by
  simp only [process_video, h, hf]
  rw [pyRange_ne_zero _ _ hN]
  simp

/-- C2 counterexample: a video reporting 29.97 fps with a 1-second interval;
the code's frame interval (line 25) is `int(29.97) = 29`, while the nearest
integer to fps × seconds is 30. -/
theorem c2_counterexample :
    frame_interval (2997 / 100) 1 = 29 ∧
    specRound ((2997 / 100 : ℚ) * ((1 : ℤ) : ℚ)) = 30 ∧
    frame_interval (2997 / 100) 1 ≠ specRound ((2997 / 100 : ℚ) * ((1 : ℤ) : ℚ)) := by
  have h1 : ((2997 / 100 : ℚ) * ((1 : ℤ) : ℚ)) = 2997 / 100 := by norm_num
  have h2 : frame_interval (2997 / 100) 1 = 29 := by
    unfold frame_interval pyInt
    rw [h1, if_pos (by norm_num), Int.floor_eq_iff]
    norm_num
  have h3 : specRound ((2997 / 100 : ℚ) * ((1 : ℤ) : ℚ)) = 30 := by
    unfold specRound
    rw [h1, Int.floor_eq_iff]
    norm_num
  exact ⟨h2, h3, by rw [h2, h3]; decide⟩

/-- C2 amended: for a nonnegative reported fps and a nonnegative interval in
seconds, the frame interval used by `process_video` is the truncation
`⌊fps × s⌋` of the product, not its nearest integer. -/
theorem c2_interval_is_truncation (fps : ℚ) (s : ℤ) (h0 : 0 ≤ fps) (hs : 0 ≤ s) :
    frame_interval fps s = ⌊fps * (s : ℚ)⌋ := by
  unfold frame_interval pyInt
  rw [if_pos (mul_nonneg h0 (by exact_mod_cast hs))]

theorem c2_interval_is_truncation_witness :
    (0 : ℚ) ≤ 1 ∧ (0 : ℤ) ≤ 1 ∧ frame_interval 1 1 = ⌊(1 : ℚ) * ((1 : ℤ) : ℚ)⌋ :=
  ⟨zero_le_one, zero_le_one, c2_interval_is_truncation 1 1 zero_le_one zero_le_one⟩

theorem c1_saves_every_Nth_frame_witness :
    (videoAllReads.isOpened = true ∧ 0 < videoAllReads.fps ∧
      1 ≤ frame_interval videoAllReads.fps 1 ∧ (1 : ℤ) ≠ 0) ∧
    ((∀ i, i ∈ specTargets (frame_interval videoAllReads.fps 1) (pyInt videoAllReads.frameCountProp) ↔
        0 ≤ i ∧ i < pyInt videoAllReads.frameCountProp ∧ frame_interval videoAllReads.fps 1 ∣ i) ∧
    (process_video videoAllReads "a.mp4".toList "out".toList 1 1).writes.map WriteEvent.srcIdx =
      (specTargets (frame_interval videoAllReads.fps 1) (pyInt videoAllReads.frameCountProp)).takeWhile
        (fun i => (videoAllReads.read i).isSome) ∧
    List.Pairwise (· < ·)
      ((process_video videoAllReads "a.mp4".toList "out".toList 1 1).writes.map WriteEvent.srcIdx) ∧
    (process_video videoAllReads "a.mp4".toList "out".toList 1 1).result =
      .ok (process_video videoAllReads "a.mp4".toList "out".toList 1 1).writes.length ∧
    ((∀ i ∈ specTargets (frame_interval videoAllReads.fps 1) (pyInt videoAllReads.frameCountProp),
        (videoAllReads.read i).isSome = true) →
      (process_video videoAllReads "a.mp4".toList "out".toList 1 1).writes.map WriteEvent.srcIdx =
        specTargets (frame_interval videoAllReads.fps 1) (pyInt videoAllReads.frameCountProp) ∧
      (process_video videoAllReads "a.mp4".toList "out".toList 1 1).result =
        .ok (⌈(pyInt videoAllReads.frameCountProp : ℚ) /
          (frame_interval videoAllReads.fps 1 : ℚ)⌉.toNat))) := by
  have hopen : videoAllReads.isOpened = true := rfl
  have hfps : 0 < videoAllReads.fps := zero_lt_one
  have hN : 1 ≤ frame_interval videoAllReads.fps 1 := by
    simp [frame_interval, pyInt, videoAllReads]
  have hD : (1 : ℤ) ≠ 0 := one_ne_zero
  exact ⟨⟨hopen, hfps, hN, hD⟩,
    c1_saves_every_Nth_frame videoAllReads "a.mp4".toList "out".toList 1 1 hopen hfps hN hD⟩

/-- C3 counterexample: a successfully opened video reporting fps 0 takes the
zero-fps early error return, and the decode handle is not released there. -/
theorem c3_counterexample :
    videoZeroFps.isOpened = true ∧
    (process_video videoZeroFps "a.mp4".toList "out".toList 1 2).released = false := by
  refine ⟨rfl, ?_⟩
  rw [process_video_zero_fps _ _ _ _ _ rfl rfl]

/-- C3 amended: the decode handle is released on every path that reaches the
read loop (opened video, nonzero fps, nonzero frame interval, nonzero
divisor), but the early error return taken when the reported frame rate is
zero leaves the handle unreleased. -/
theorem c3_release_behaviour (v : Video) (p o : List Char) (s D : ℤ)
    (hopen : v.isOpened = true) :
    (v.fps ≠ 0 → frame_interval v.fps s ≠ 0 → D ≠ 0 →
      (process_video v p o s D).released = true) ∧
    (v.fps = 0 → (process_video v p o s D).released = false) := by
  constructor
  · intro hf hN hD
    rw [process_video_run_any v p o s D hopen hf hN]
    have hspec := readLoop_spec v o (splitextStem (basename p)) hD
      ((List.range (pyRangeLen 0 (pyInt v.frameCountProp) (frame_interval v.fps s))).map
        (fun (i : ℕ) => 0 + (i : ℤ) * frame_interval v.fps s)) 0
    rcases hrec : readLoop v D o (splitextStem (basename p))
      ((List.range (pyRangeLen 0 (pyInt v.frameCountProp) (frame_interval v.fps s))).map
        (fun (i : ℕ) => 0 + (i : ℤ) * frame_interval v.fps s)) 0 with ⟨res, evs⟩
    rw [hrec] at hspec
    obtain ⟨h1, -, -, -⟩ := hspec
    simp only at h1
    rw [h1]
    rfl
  · intro hf
    rw [process_video_zero_fps _ _ _ _ _ hopen hf]

theorem c3_release_behaviour_witness :
    videoAllReads.isOpened = true ∧
    ((videoAllReads.fps ≠ 0 → frame_interval videoAllReads.fps 1 ≠ 0 → (1 : ℤ) ≠ 0 →
      (process_video videoAllReads "a.mp4".toList "out".toList 1 1).released = true) ∧
    (videoAllReads.fps = 0 →
      (process_video videoAllReads "a.mp4".toList "out".toList 1 1).released = false)) :=
  ⟨rfl, c3_release_behaviour videoAllReads "a.mp4".toList "out".toList 1 1 rfl⟩


/-- C6: a video that fails to open, or reports frame rate zero, makes
`process_video` print an error and return a saved count of 0 with no writes
and no exception; the batch still maps every collected path to its own
worker result. -/
theorem c6_failures_return_zero (v : Video) (p o : List Char) (s D : ℤ)
    (h : v.isOpened = false ∨ v.fps = 0) :
    (process_video v p o s D).result = .ok 0 ∧
    (process_video v p o s D).errorPrinted = true ∧
    (process_video v p o s D).writes = [] ∧
    ∀ (env : List Char → Video) (listing : List Char → List (List Char))
      (dirs : List (List Char)),
      (extract_frames_results env listing dirs o s D).length =
        (collect_video_paths listing dirs).length ∧
      ∀ q ∈ collect_video_paths listing dirs,
        process_video (env q) q o s D ∈ extract_frames_results env listing dirs o s D := by
  have hbatch : ∀ (env : List Char → Video) (listing : List Char → List (List Char))
      (dirs : List (List Char)),
      (extract_frames_results env listing dirs o s D).length =
        (collect_video_paths listing dirs).length ∧
      ∀ q ∈ collect_video_paths listing dirs,
        process_video (env q) q o s D ∈ extract_frames_results env listing dirs o s D := by
    intro env listing dirs
    refine ⟨List.length_map _ _, fun q hq => List.mem_map_of_mem _ hq⟩
  rcases h with h | h
  · rw [process_video_not_opened v p o s D h]
    exact ⟨rfl, rfl, rfl, hbatch⟩
  · cases hop : v.isOpened with
    | false =>
      rw [process_video_not_opened v p o s D hop]
      exact ⟨rfl, rfl, rfl, hbatch⟩
    | true =>
      rw [process_video_zero_fps v p o s D hop h]
      exact ⟨rfl, rfl, rfl, hbatch⟩

theorem c6_failures_return_zero_witness :
    (videoZeroFps.isOpened = false ∨ videoZeroFps.fps = 0) ∧
    (process_video videoZeroFps "missing.mp4".toList "out".toList 1 2).result = .ok 0 ∧
    (process_video videoZeroFps "missing.mp4".toList "out".toList 1 2).errorPrinted = true ∧
    (process_video videoZeroFps "missing.mp4".toList "out".toList 1 2).writes = [] ∧
    ∀ (env : List Char → Video) (listing : List Char → List (List Char))
      (dirs : List (List Char)),
      (extract_frames_results env listing dirs "out".toList 1 2).length =
        (collect_video_paths listing dirs).length ∧
      ∀ q ∈ collect_video_paths listing dirs,
        process_video (env q) q "out".toList 1 2 ∈
          extract_frames_results env listing dirs "out".toList 1 2 :=
  ⟨Or.inr rfl, c6_failures_return_zero videoZeroFps "missing.mp4".toList "out".toList 1 2 (Or.inr rfl)⟩

/-- C9: when the video opens with positive fps, the frame interval and frame
count are at least 1 and the first read succeeds, a divisor of 0 makes
`process_video` raise `ZeroDivisionError` instead of returning a count. -/
theorem c9_zero_divisor_raises (v : Video) (p o : List Char) (s : ℤ)
    (hopen : v.isOpened = true) (hfps : 0 < v.fps)
    (hN : 1 ≤ frame_interval v.fps s) (hT : 1 ≤ pyInt v.frameCountProp)
    (hread : (v.read 0).isSome = true) :
    (process_video v p o s 0).result = .error .zeroDivisionError := by
  have hNpos : 0 < frame_interval v.fps s := by omega
  rw [process_video_run v p o s 0 hopen hfps.ne' hNpos]
  set N := frame_interval v.fps s
  set T := pyInt v.frameCountProp
  have hK : 0 < ⌈(T : ℚ) / (N : ℚ)⌉.toNat := by
    have hTq : (0 : ℚ) < (T : ℚ) := by exact_mod_cast hT
    have hNq : (0 : ℚ) < (N : ℚ) := by exact_mod_cast hNpos
    have : (0 : ℤ) < ⌈(T : ℚ) / (N : ℚ)⌉ := Int.ceil_pos.2 (div_pos hTq hNq)
    omega
  obtain ⟨fr, hfr⟩ := Option.isSome_iff_exists.1 hread
  have hcons : ∃ l', specTargets N T = 0 :: l' := by
    unfold specTargets
    rcases hKval : ⌈(T : ℚ) / (N : ℚ)⌉.toNat with _ | k
    · omega
    · refine ⟨(List.range k).map (fun (j : ℕ) => ((j : ℤ) + 1) * N), ?_⟩
      rw [List.range_succ_eq_map, List.map_cons, List.map_map]
      simp only [Nat.cast_zero, zero_mul, List.cons.injEq, true_and]
      apply List.map_congr_left
      intro a _
      simp only [Function.comp_apply]
      push_cast
      ring
  rcases hcons with ⟨l', hl⟩
  rw [hl]
  simp [readLoop, hfr, finishRun]

theorem c9_zero_divisor_raises_witness :
    (videoAllReads.isOpened = true ∧ 0 < videoAllReads.fps ∧
      1 ≤ frame_interval videoAllReads.fps 1 ∧ 1 ≤ pyInt videoAllReads.frameCountProp ∧
      (videoAllReads.read 0).isSome = true) ∧
    (process_video videoAllReads "a.mp4".toList "out".toList 1 0).result =
      .error .zeroDivisionError := by
  have h1 : videoAllReads.isOpened = true := rfl
  have h2 : 0 < videoAllReads.fps := zero_lt_one
  have h3 : 1 ≤ frame_interval videoAllReads.fps 1 := by simp [frame_interval, pyInt, videoAllReads]
  have h4 : 1 ≤ pyInt videoAllReads.frameCountProp := by simp [pyInt, videoAllReads]
  have h5 : (videoAllReads.read 0).isSome = true := rfl
  exact ⟨⟨h1, h2, h3, h4, h5⟩,
    c9_zero_divisor_raises videoAllReads "a.mp4".toList "out".toList 1 h1 h2 h3 h4 h5⟩

/-- C10: when the video opens with positive fps but `int(fps × seconds)` is
zero, the `range` call with step 0 raises `ValueError`, so `process_video`
raises instead of returning a count. -/
theorem c10_zero_interval_raises (v : Video) (p o : List Char) (s D : ℤ)
    (hopen : v.isOpened = true) (hfps : 0 < v.fps)
    (hN : frame_interval v.fps s = 0) :
    (process_video v p o s D).result = .error .valueError := by
  rw [process_video_zero_interval v p o s D hopen hfps.ne' hN]

theorem c10_zero_interval_raises_witness :
    (videoFps30.isOpened = true ∧ 0 < videoFps30.fps ∧
      frame_interval videoFps30.fps 0 = 0) ∧
    (process_video videoFps30 "a.mp4".toList "out".toList 0 2).result = .error .valueError := by
  have h1 : videoFps30.isOpened = true := rfl
  have h2 : 0 < videoFps30.fps := by decide
  have h3 : frame_interval videoFps30.fps 0 = 0 := by simp [frame_interval, pyInt, videoFps30]
  exact ⟨⟨h1, h2, h3⟩, c10_zero_interval_raises videoFps30 "a.mp4".toList "out".toList 0 2 h1 h2 h3⟩

/-- C7: every frame written by `process_video` with divisor `D ≥ 1` was
obtained from a successfully read frame and has height `⌊H / D⌋` and width
`⌊W / D⌋`, the integer-division downscaling of the source dimensions. -/
theorem c7_resize_floor_dims (v : Video) (p o : List Char) (s : ℤ) {D : ℤ} (hD : 1 ≤ D) :
    ∀ e ∈ (process_video v p o s D).writes, ∃ fr, v.read e.srcIdx = some fr ∧
      e.frame.height = ⌊(fr.height : ℚ) / (D : ℚ)⌋ ∧
      e.frame.width = ⌊(fr.width : ℚ) / (D : ℚ)⌋ := by
  have hDpos : (0 : ℤ) < D := by omega
  have hDne : D ≠ 0 := by omega
  intro e he
  cases hop : v.isOpened with
  | false =>
    rw [process_video_not_opened v p o s D hop] at he
    cases he
  | true =>
    by_cases hf : v.fps = 0
    · rw [process_video_zero_fps v p o s D hop hf] at he
      cases he
    · by_cases hN : frame_interval v.fps s = 0
      · rw [process_video_zero_interval v p o s D hop hf hN] at he
        cases he
      · rw [process_video_run_any v p o s D hop hf hN] at he
        set idxs := (List.range (pyRangeLen 0 (pyInt v.frameCountProp)
          (frame_interval v.fps s))).map
          (fun (i : ℕ) => 0 + (i : ℤ) * frame_interval v.fps s) with hidxs
        have hspec := readLoop_spec v o (splitextStem (basename p)) hDne idxs 0
        rcases hrec : readLoop v D o (splitextStem (basename p)) idxs 0 with ⟨res, evs⟩
        rw [hrec] at hspec
        obtain ⟨-, -, -, h4⟩ := hspec
        rw [hrec] at he
        have hevs : e ∈ evs := by
          rcases res with n | err
          · exact he
          · exact he
        obtain ⟨fr, hfr, hframe⟩ := h4 e hevs
        refine ⟨fr, hfr, ?_, ?_⟩
        · rw [hframe]
          exact fdiv_eq_rat_floor _ hDpos
        · rw [hframe]
          exact fdiv_eq_rat_floor _ hDpos

theorem c7_resize_floor_dims_witness :
    1 ≤ (2 : ℤ) ∧
    ∀ e ∈ (process_video videoAllReads "a.mp4".toList "out".toList 1 2).writes,
      ∃ fr, videoAllReads.read e.srcIdx = some fr ∧
        e.frame.height = ⌊(fr.height : ℚ) / ((2 : ℤ) : ℚ)⌋ ∧
        e.frame.width = ⌊(fr.width : ℚ) / ((2 : ℤ) : ℚ)⌋ :=
  ⟨by decide, c7_resize_floor_dims videoAllReads "a.mp4".toList "out".toList 1 (by decide)⟩

/-- C8: the batch extractor collects exactly the entries of the listed
directories (non-recursive) whose lowercased names end in `.mp4` or `.ts`,
prefixed with their directory, and dispatches one worker per collected
path, in order. -/
theorem c8_selects_exactly_video_files (env : List Char → Video)
    (listing : List Char → List (List Char)) (dirs : List (List Char))
    (o : List Char) (s D : ℤ) :
    collect_video_paths listing dirs =
      dirs.flatMap (fun d => ((listing d).filter isVideoFile).map (fun f => d ++ '/' :: f)) ∧
    (∀ q, q ∈ collect_video_paths listing dirs ↔
      ∃ d ∈ dirs, ∃ f ∈ listing d, isVideoFile f = true ∧ q = d ++ '/' :: f) ∧
    (∀ f, isVideoFile f =
      (endsWithCh ".mp4".toList (lowerStr f) || endsWithCh ".ts".toList (lowerStr f))) ∧
    extract_frames_results env listing dirs o s D =
      (collect_video_paths listing dirs).map (fun q => process_video (env q) q o s D) := by
  have hfold : ∀ (ds : List (List Char)) (acc : List (List Char)),
      ds.foldl (fun acc d =>
          acc ++ ((listing d).filter isVideoFile).map (fun f => d ++ '/' :: f)) acc =
        acc ++ ds.flatMap (fun d =>
          ((listing d).filter isVideoFile).map (fun f => d ++ '/' :: f)) := by
    intro ds
    induction ds with
    | nil => intro acc; simp
    | cons d rest ih => intro acc; simp [ih, List.append_assoc]
  have h1 : collect_video_paths listing dirs =
      dirs.flatMap (fun d => ((listing d).filter isVideoFile).map (fun f => d ++ '/' :: f)) := by
    unfold collect_video_paths
    rw [hfold]
    simp
  refine ⟨h1, ?_, fun f => rfl, rfl⟩
  intro q
  rw [h1, List.mem_flatMap]
  constructor
  · rintro ⟨d, hd, hq⟩
    rw [List.mem_map] at hq
    rcases hq with ⟨f, hf, rfl⟩
    rw [List.mem_filter] at hf
    exact ⟨d, hd, f, hf.1, hf.2, rfl⟩
  · rintro ⟨d, hd, f, hf, hvf, rfl⟩
    exact ⟨d, hd, List.mem_map_of_mem _ (List.mem_filter.2 ⟨hf, hvf⟩)⟩

theorem writes_file_shape (v : Video) (p o : List Char) (s D : ℤ) (hD : D ≠ 0) :
    (process_video v p o s D).writes.map WriteEvent.file =
      (List.range (process_video v p o s D).writes.length).map
        (fun k => (⟨o, splitextStem (basename p), k⟩ : SavedFile)) := by
  cases hop : v.isOpened with
  | false => rw [process_video_not_opened v p o s D hop]; rfl
  | true =>
    by_cases hf : v.fps = 0
    · rw [process_video_zero_fps v p o s D hop hf]; rfl
    · by_cases hN : frame_interval v.fps s = 0
      · rw [process_video_zero_interval v p o s D hop hf hN]; rfl
      · rw [process_video_run_any v p o s D hop hf hN]
        set idxs := (List.range (pyRangeLen 0 (pyInt v.frameCountProp)
          (frame_interval v.fps s))).map
          (fun (i : ℕ) => 0 + (i : ℤ) * frame_interval v.fps s) with hidxs
        have hspec := readLoop_spec v o (splitextStem (basename p)) hD idxs 0
        rcases hrec : readLoop v D o (splitextStem (basename p)) idxs 0 with ⟨res, evs⟩
        rw [hrec] at hspec
        obtain ⟨-, h2, h3, -⟩ := hspec
        simp only at h2 h3
        have hlen : evs.length = (idxs.takeWhile (fun i => (v.read i).isSome)).length := by
          have := congrArg List.length h2
          rwa [List.length_map] at this
        have hwr : (finishRun (res, evs)).writes = evs := by
          rcases res with n | err <;> rfl
        rw [hwr, hlen, h3]
        apply List.map_congr_left
        intro a _
        simp

/-- C4 counterexample: two videos with the same basename `a.mp4` in
different directories are processed in one batch; both workers write the
same rendered filenames into the shared output directory, so saved-frame
filenames are not unique across processed videos. -/
theorem c4_counterexample :
    ("d1/a.mp4".toList ≠ "d2/a.mp4".toList) ∧
    ¬ (((extract_frames_results (fun _ => videoAllReads) (fun _ => ["a.mp4".toList])
        ["d1".toList, "d2".toList] "out".toList 1 1).flatMap ProcOut.writes).map
          (fun e => e.file.render)).Nodup := by
  have hN : frame_interval videoAllReads.fps 1 = 1 := by
    simp [frame_interval, pyInt, videoAllReads]
  have hT : pyInt videoAllReads.frameCountProp = 3 := by simp [pyInt, videoAllReads]
  have hst : specTargets 1 3 = [0, 1, 2] := by
    have hK : (⌈((3 : ℤ) : ℚ) / ((1 : ℤ) : ℚ)⌉ : ℤ).toNat = 3 := by
      norm_num
      rfl
    unfold specTargets
    rw [hK]
    decide
  have hrun : ∀ q : List Char, process_video videoAllReads q "out".toList 1 1 =
      finishRun (readLoop videoAllReads 1 "out".toList (splitextStem (basename q)) [0, 1, 2] 0) := by
    intro q
    rw [process_video_run videoAllReads q "out".toList 1 1 rfl one_ne_zero
      (by rw [hN]; decide)]
    rw [hN, hT, hst]
  have hres : extract_frames_results (fun _ => videoAllReads) (fun _ => ["a.mp4".toList])
      ["d1".toList, "d2".toList] "out".toList 1 1 =
      [finishRun (readLoop videoAllReads 1 "out".toList
          (splitextStem (basename "d1/a.mp4".toList)) [0, 1, 2] 0),
       finishRun (readLoop videoAllReads 1 "out".toList
          (splitextStem (basename "d2/a.mp4".toList)) [0, 1, 2] 0)] := by
    have hcollect : collect_video_paths (fun _ => ["a.mp4".toList])
        ["d1".toList, "d2".toList] = ["d1/a.mp4".toList, "d2/a.mp4".toList] := by decide
    unfold extract_frames_results
    rw [hcollect]
    simp only [List.map_cons, List.map_nil, hrun]
  refine ⟨by decide, ?_⟩
  rw [hres]
  decide

/-- C4 amended: saved files are `<basename>_frame_%04d.png` with per-video
indices zero-padded, strictly increasing and gapless from 0, so filenames
are unique within each processed video; across videos they are distinct
only when the basenames-without-extension differ (videos sharing a basename
collide, see the counterexample). -/
theorem c4_filenames_per_video (v : Video) (p o : List Char) (s D : ℤ) (hD : D ≠ 0) :
    (process_video v p o s D).writes.map WriteEvent.file =
      (List.range (process_video v p o s D).writes.length).map
        (fun k => (⟨o, splitextStem (basename p), k⟩ : SavedFile)) ∧
    ((process_video v p o s D).writes.map WriteEvent.file).Nodup ∧
    ∀ (v2 : Video) (p2 : List Char),
      splitextStem (basename p) ≠ splitextStem (basename p2) →
      ∀ f1 ∈ (process_video v p o s D).writes.map WriteEvent.file,
      ∀ f2 ∈ (process_video v2 p2 o s D).writes.map WriteEvent.file, f1 ≠ f2 := by
  have h1 := writes_file_shape v p o s D hD
  refine ⟨h1, ?_, ?_⟩
  · rw [h1]
    refine List.Nodup.map ?_ (List.nodup_range _)
    intro a b hab
    simpa using hab
  · intro v2 p2 hst f1 hf1 f2 hf2
    rw [h1, List.mem_map] at hf1
    rw [writes_file_shape v2 p2 o s D hD, List.mem_map] at hf2
    rcases hf1 with ⟨k1, -, rfl⟩
    rcases hf2 with ⟨k2, -, rfl⟩
    intro hcontra
    exact hst (congrArg SavedFile.stem hcontra)

theorem c4_filenames_per_video_witness :
    (1 : ℤ) ≠ 0 ∧
    ((process_video videoAllReads "a.mp4".toList "out".toList 1 1).writes.map WriteEvent.file =
      (List.range (process_video videoAllReads "a.mp4".toList "out".toList 1 1).writes.length).map
        (fun k => (⟨"out".toList, splitextStem (basename "a.mp4".toList), k⟩ : SavedFile)) ∧
    ((process_video videoAllReads "a.mp4".toList "out".toList 1 1).writes.map
      WriteEvent.file).Nodup ∧
    ∀ (v2 : Video) (p2 : List Char),
      splitextStem (basename "a.mp4".toList) ≠ splitextStem (basename p2) →
      ∀ f1 ∈ (process_video videoAllReads "a.mp4".toList "out".toList 1 1).writes.map
        WriteEvent.file,
      ∀ f2 ∈ (process_video v2 p2 "out".toList 1 1).writes.map WriteEvent.file, f1 ≠ f2) :=
  ⟨one_ne_zero, c4_filenames_per_video videoAllReads "a.mp4".toList "out".toList 1 1 one_ne_zero⟩

theorem totalPngBytes_general (l : List (List Char × ℕ)) :
    ∀ a : ℕ, l.foldl (fun acc f => if endsWithCh ".png".toList f.1 then acc + f.2 else acc) a =
      a + ((l.filter (fun f => endsWithCh ".png".toList f.1)).map Prod.snd).sum := by
  induction l with
  | nil => intro a; simp
  | cons f rest ih =>
    intro a
    by_cases hf : endsWithCh ".png".toList f.1 = true
    · simp only [List.foldl_cons, hf, if_pos, List.filter_cons_of_pos, List.map_cons,
        List.sum_cons, ih]
      omega
    · simp only [List.foldl_cons, hf, if_neg, Bool.false_eq_true, List.filter_cons_of_neg, ih]
      simp at hf
      simp [hf]

theorem totalPngBytes_eq (l : List (List Char × ℕ)) :
    totalPngBytes l = ((l.filter (fun f => endsWithCh ".png".toList f.1)).map Prod.snd).sum := by
  unfold totalPngBytes
  rw [totalPngBytes_general]
  omega

theorem formatSize_spec (T : ℕ) :
    (formatSize T).1 = (T : ℚ) / 1024 ^ (formatSize T).2 ∧ (formatSize T).2 ≤ 3 ∧
    ((formatSize T).1 < 1024 ∨ (formatSize T).2 = 3) ∧
    (0 < (formatSize T).2 → (1024 : ℚ) ^ (formatSize T).2 ≤ (T : ℚ)) := by
  have hp : (0 : ℚ) < 1024 := by norm_num
  unfold formatSize
  simp only [scaleLoop]
  split_ifs with h1 h2 h3
  · have e2 : (1024 : ℚ) * 1024 ≤ (T : ℚ) / 1024 := (le_div_iff₀ hp).1 h3.1
    have e3 : (1024 : ℚ) * 1024 * 1024 ≤ (T : ℚ) := by
      have h := (le_div_iff₀ hp).1 e2
      linarith
    refine ⟨?_, by norm_num, Or.inr rfl, fun _ => ?_⟩
    · show (T : ℚ) / 1024 / 1024 / 1024 = (T : ℚ) / 1024 ^ 3
      rw [div_div, div_div]
      norm_num
    · show (1024 : ℚ) ^ 3 ≤ (T : ℚ)
      have hpow : (1024 : ℚ) ^ 3 = 1024 * 1024 * 1024 := by norm_num
      rw [hpow]
      exact e3
  · have e2 : (1024 : ℚ) * 1024 ≤ (T : ℚ) := by
      have h := (le_div_iff₀ hp).1 h2.1
      linarith
    have h3' : ¬ (1024 ≤ (T : ℚ) / 1024 / 1024) := fun ha => h3 ⟨ha, by norm_num⟩
    refine ⟨?_, by norm_num, Or.inl (not_le.1 h3'), fun _ => ?_⟩
    · show (T : ℚ) / 1024 / 1024 = (T : ℚ) / 1024 ^ 2
      rw [div_div]
      norm_num
    · show (1024 : ℚ) ^ 2 ≤ (T : ℚ)
      have hpow : (1024 : ℚ) ^ 2 = 1024 * 1024 := by norm_num
      rw [hpow]
      exact e2
  · have h2' : ¬ (1024 ≤ (T : ℚ) / 1024) := fun ha => h2 ⟨ha, by norm_num⟩
    refine ⟨?_, by norm_num, Or.inl (not_le.1 h2'), fun _ => ?_⟩
    · show (T : ℚ) / 1024 = (T : ℚ) / 1024 ^ 1
      norm_num
    · show (1024 : ℚ) ^ 1 ≤ (T : ℚ)
      rw [pow_one]
      exact h1.1
  · have h1' : ¬ (1024 ≤ (T : ℚ)) := fun ha => h1 ⟨ha, by norm_num⟩
    refine ⟨?_, by norm_num, Or.inl (not_le.1 h1'), fun h => (Nat.lt_irrefl 0 h).elim⟩
    show (T : ℚ) = (T : ℚ) / 1024 ^ 0
    norm_num

/-- C5 counterexample: a pre-existing `old.png` of 5 bytes in the output
directory and a run that writes nothing; the printed aggregate counts the 5
bytes although no PNG was written during the run. -/
theorem c5_counterexample :
    totalPngBytes ([("old.png".toList, 5)] ++ ([] : List (List Char × ℕ))) = 5 ∧
    (([] : List (List Char × ℕ)).map Prod.snd).sum = 0 ∧
    totalPngBytes ([("old.png".toList, 5)] ++ ([] : List (List Char × ℕ))) ≠
      (([] : List (List Char × ℕ)).map Prod.snd).sum := by
  refine ⟨by decide, rfl, by decide⟩

/-- C5 amended: the printed aggregate is the byte sum of every `.png` entry
of the output directory listing — the files written this run plus any
pre-existing PNG files — scaled by repeated division by 1024 into the
largest unit index (capped at GB) for which the scaled value is below
1024. -/
theorem c5_aggregate_size (pre written : List (List Char × ℕ))
    (hw : ∀ f ∈ written, endsWithCh ".png".toList f.1 = true) :
    totalPngBytes (pre ++ written) = totalPngBytes pre + (written.map Prod.snd).sum ∧
    (formatSize (totalPngBytes (pre ++ written))).1 =
      (totalPngBytes (pre ++ written) : ℚ) /
        1024 ^ (formatSize (totalPngBytes (pre ++ written))).2 ∧
    (formatSize (totalPngBytes (pre ++ written))).2 ≤ 3 ∧
    ((formatSize (totalPngBytes (pre ++ written))).1 < 1024 ∨
      (formatSize (totalPngBytes (pre ++ written))).2 = 3) ∧
    (0 < (formatSize (totalPngBytes (pre ++ written))).2 →
      (1024 : ℚ) ^ (formatSize (totalPngBytes (pre ++ written))).2 ≤
        (totalPngBytes (pre ++ written) : ℚ)) := by
  have hsplit : totalPngBytes (pre ++ written) =
      totalPngBytes pre + (written.map Prod.snd).sum := by
    rw [totalPngBytes_eq, totalPngBytes_eq, List.filter_append, List.map_append,
      List.sum_append, List.filter_eq_self.2 hw]
  obtain ⟨a, b, c, d⟩ := formatSize_spec (totalPngBytes (pre ++ written))
  exact ⟨hsplit, a, b, c, d⟩

theorem c5_aggregate_size_witness :
    (∀ f ∈ [("out/a_frame_0000.png".toList, 100)], endsWithCh ".png".toList f.1 = true) ∧
    (totalPngBytes ([("old.png".toList, 5)] ++ [("out/a_frame_0000.png".toList, 100)]) =
      totalPngBytes [("old.png".toList, 5)] +
        ([("out/a_frame_0000.png".toList, 100)].map Prod.snd).sum ∧
    (formatSize (totalPngBytes ([("old.png".toList, 5)] ++
        [("out/a_frame_0000.png".toList, 100)]))).1 =
      (totalPngBytes ([("old.png".toList, 5)] ++ [("out/a_frame_0000.png".toList, 100)]) : ℚ) /
        1024 ^ (formatSize (totalPngBytes ([("old.png".toList, 5)] ++
          [("out/a_frame_0000.png".toList, 100)]))).2 ∧
    (formatSize (totalPngBytes ([("old.png".toList, 5)] ++
      [("out/a_frame_0000.png".toList, 100)]))).2 ≤ 3 ∧
    ((formatSize (totalPngBytes ([("old.png".toList, 5)] ++
        [("out/a_frame_0000.png".toList, 100)]))).1 < 1024 ∨
      (formatSize (totalPngBytes ([("old.png".toList, 5)] ++
        [("out/a_frame_0000.png".toList, 100)]))).2 = 3) ∧
    (0 < (formatSize (totalPngBytes ([("old.png".toList, 5)] ++
        [("out/a_frame_0000.png".toList, 100)]))).2 →
      (1024 : ℚ) ^ (formatSize (totalPngBytes ([("old.png".toList, 5)] ++
          [("out/a_frame_0000.png".toList, 100)]))).2 ≤
        (totalPngBytes ([("old.png".toList, 5)] ++
          [("out/a_frame_0000.png".toList, 100)]) : ℚ))) :=
  ⟨by decide, c5_aggregate_size [("old.png".toList, 5)]
    [("out/a_frame_0000.png".toList, 100)] (by decide)⟩
